import Mathlib

/-!
Verification of the request/cache layer of the `wanikani-api` library
(`src/classes/WaniKaniRequest.ts`), shallowly embedded in Lean.

Modelling conventions:
* JSON values are the inductive `Json`; a file whose bytes fail `JSON.parse`
  is modelled by a `none` content.  JavaScript numbers that the claims touch
  (HTTP status codes, `Date.now()` timestamps, TTLs) are exact integers well
  below 2^53, so they are embedded as `Int` with ordinary arithmetic.
* `JSON.stringify` is modelled concretely (`Json` is not needed for the
  fingerprint: the stringified payload is built directly, mirroring the
  object literal in `generateCacheKey`), including JSON string escaping.
* The cryptographic digests `md5` and `sha256` are abstract parameters
  (`HashModel`); claims about fingerprint collisions are settled on the
  digest *input* (the `uniqueString` of the source), which is the honest
  reading of "modulo hash collision".
* The cache directory is modelled as a directory listing (`FS`), and the
  fallible filesystem/network environment of one call by explicit
  failure oracles (`Env`): promise rejection of `fs.writeFile`,
  `fs.stat`, `fs.unlink`, `fs.readdir` and `fetch` are each a Boolean
  (or per-file-name Boolean) outcome supplied by the environment.
-/

namespace WaniKani

/-- JSON values, the result type of a successful `JSON.parse`.  Object
fields keep their textual order (JavaScript objects preserve insertion
order, which `JSON.stringify` observes). -/
inductive Json where
  | null
  | bool (b : Bool)
  | num (n : Int)
  | str (s : String)
  | arr (xs : List Json)
  | obj (kvs : List (String × Json))

mutual

/-- Decidable structural equality on `Json`. -/
def Json.deq : (a b : Json) → Decidable (a = b)
  | .null, .null => isTrue rfl
  | .null, .bool _ => isFalse (fun h => Json.noConfusion h)
  | .null, .num _ => isFalse (fun h => Json.noConfusion h)
  | .null, .str _ => isFalse (fun h => Json.noConfusion h)
  | .null, .arr _ => isFalse (fun h => Json.noConfusion h)
  | .null, .obj _ => isFalse (fun h => Json.noConfusion h)
  | .bool _, .null => isFalse (fun h => Json.noConfusion h)
  | .bool a, .bool b =>
    match Bool.decEq a b with
    | isTrue h => isTrue (by rw [h])
    | isFalse h => isFalse (fun he => h (by cases he; rfl))
  | .bool _, .num _ => isFalse (fun h => Json.noConfusion h)
  | .bool _, .str _ => isFalse (fun h => Json.noConfusion h)
  | .bool _, .arr _ => isFalse (fun h => Json.noConfusion h)
  | .bool _, .obj _ => isFalse (fun h => Json.noConfusion h)
  | .num _, .null => isFalse (fun h => Json.noConfusion h)
  | .num _, .bool _ => isFalse (fun h => Json.noConfusion h)
  | .num a, .num b =>
    match Int.decEq a b with
    | isTrue h => isTrue (by rw [h])
    | isFalse h => isFalse (fun he => h (by cases he; rfl))
  | .num _, .str _ => isFalse (fun h => Json.noConfusion h)
  | .num _, .arr _ => isFalse (fun h => Json.noConfusion h)
  | .num _, .obj _ => isFalse (fun h => Json.noConfusion h)
  | .str _, .null => isFalse (fun h => Json.noConfusion h)
  | .str _, .bool _ => isFalse (fun h => Json.noConfusion h)
  | .str _, .num _ => isFalse (fun h => Json.noConfusion h)
  | .str a, .str b =>
    match String.decEq a b with
    | isTrue h => isTrue (by rw [h])
    | isFalse h => isFalse (fun he => h (by cases he; rfl))
  | .str _, .arr _ => isFalse (fun h => Json.noConfusion h)
  | .str _, .obj _ => isFalse (fun h => Json.noConfusion h)
  | .arr _, .null => isFalse (fun h => Json.noConfusion h)
  | .arr _, .bool _ => isFalse (fun h => Json.noConfusion h)
  | .arr _, .num _ => isFalse (fun h => Json.noConfusion h)
  | .arr _, .str _ => isFalse (fun h => Json.noConfusion h)
  | .arr a, .arr b =>
    match Json.deqList a b with
    | isTrue h => isTrue (by rw [h])
    | isFalse h => isFalse (fun he => h (by cases he; rfl))
  | .arr _, .obj _ => isFalse (fun h => Json.noConfusion h)
  | .obj _, .null => isFalse (fun h => Json.noConfusion h)
  | .obj _, .bool _ => isFalse (fun h => Json.noConfusion h)
  | .obj _, .num _ => isFalse (fun h => Json.noConfusion h)
  | .obj _, .str _ => isFalse (fun h => Json.noConfusion h)
  | .obj _, .arr _ => isFalse (fun h => Json.noConfusion h)
  | .obj a, .obj b =>
    match Json.deqKV a b with
    | isTrue h => isTrue (by rw [h])
    | isFalse h => isFalse (fun he => h (by cases he; rfl))

/-- Decidable structural equality on lists of `Json`. -/
def Json.deqList : (a b : List Json) → Decidable (a = b)
  | [], [] => isTrue rfl
  | [], _ :: _ => isFalse (fun h => List.noConfusion h)
  | _ :: _, [] => isFalse (fun h => List.noConfusion h)
  | a :: as, b :: bs =>
    match Json.deq a b, Json.deqList as bs with
    | isTrue h1, isTrue h2 => isTrue (by rw [h1, h2])
    | isFalse h1, _ => isFalse (fun he => h1 (by cases he; rfl))
    | _, isFalse h2 => isFalse (fun he => h2 (by cases he; rfl))

/-- Decidable structural equality on JSON object field lists. -/
def Json.deqKV : (a b : List (String × Json)) → Decidable (a = b)
  | [], [] => isTrue rfl
  | [], _ :: _ => isFalse (fun h => List.noConfusion h)
  | _ :: _, [] => isFalse (fun h => List.noConfusion h)
  | (k1, v1) :: as, (k2, v2) :: bs =>
    match String.decEq k1 k2, Json.deq v1 v2, Json.deqKV as bs with
    | isTrue hk, isTrue hv, isTrue ht => isTrue (by rw [hk, hv, ht])
    | isFalse hk, _, _ => isFalse (fun he => hk (by cases he; rfl))
    | _, isFalse hv, _ => isFalse (fun he => hv (by cases he; rfl))
    | _, _, isFalse ht => isFalse (fun he => ht (by cases he; rfl))

end

instance : DecidableEq Json := Json.deq

/-- First-match lookup of a field in a JSON object, i.e. JavaScript
property access `obj[key]` on a parsed object. -/
def jsonLookup : List (String × Json) → String → Option Json
  | [], _ => none
  | (k, v) :: rest, key => if k = key then some v else jsonLookup rest key

/-- `fetch` options as the source uses them: `RequestInit`'s `method`,
`headers` (an ordered string-keyed record) and `body` (a string, or absent).
These are the three fields `generateCacheKey` extracts. -/
structure ReqOptions where
  method : Option String
  headers : Option (List (String × String))
  body : Option String
deriving DecidableEq

/-- The two cryptographic digests the source uses (`crypto.createHash('md5')`
and `crypto.createHash('sha256')`, hex output), kept abstract: every theorem
about fingerprints either holds for all digest functions or is stated on the
digest input. -/
structure HashModel where
  md5Hex : String → String
  sha256Hex : String → String

/-- A hash model instance used by concrete witnesses (claims never depend on
the concrete digests). -/
def idHash : HashModel := ⟨fun s => s, fun s => s⟩

/-! ### Model of `JSON.stringify` on strings (escaping) -/

/-- Lower-case hex digit, as produced by `JSON.stringify`'s `\u00XX`
escapes. -/
def hexDigitChar (n : Nat) : Char :=
  if n < 10 then Char.ofNat (48 + n) else Char.ofNat (87 + n)

/-- Escaping of one character inside a JSON string literal, exactly as
`JSON.stringify` emits it: `\"`, `\\`, the shorthands `\b \t \n \f \r`, and
`\u00XX` for other control characters; every other character is literal. -/
def escChar (c : Char) : List Char :=
  if c = '"' then ['\\', '"']
  else if c = '\\' then ['\\', '\\']
  else if c = Char.ofNat 8 then ['\\', 'b']
  else if c = Char.ofNat 9 then ['\\', 't']
  else if c = Char.ofNat 10 then ['\\', 'n']
  else if c = Char.ofNat 12 then ['\\', 'f']
  else if c = Char.ofNat 13 then ['\\', 'r']
  else if c.toNat < 32 then
    ['\\', 'u', '0', '0', hexDigitChar (c.toNat / 16), hexDigitChar (c.toNat % 16)]
  else [c]

/-- JSON string-body escaping of a character list. -/
def escapeChars : List Char → List Char
  | [] => []
  | c :: cs => escChar c ++ escapeChars cs

/-- `JSON.stringify` of a string value: quoted, body escaped. -/
def quoteStr (s : String) : String :=
  String.mk ('"' :: (escapeChars s.data ++ ['"']))

/-- `JSON.stringify` of a string-valued record (the `headers` record in
`generateCacheKey`), field order preserved: the comma-separated field list
without the surrounding braces. -/
def headersJsonBody : List (String × String) → String
  | [] => ""
  | [(k, v)] => quoteStr k ++ ":" ++ quoteStr v
  | (k, v) :: rest => quoteStr k ++ ":" ++ quoteStr v ++ "," ++ headersJsonBody rest

/-- `JSON.stringify` of the headers record, braces included. -/
def headersJson (hs : List (String × String)) : String :=
  "\x7b" ++ headersJsonBody hs ++ "\x7d"

/-! ### Model of `new URL(endpoint, 'https://base')`

The source normalises the endpoint against a fixed dummy origin and keeps
only `pathname` and the serialised `searchParams`.  The WHATWG parser is a
platform builtin, modelled here for the root-relative endpoint strings the
library produces (`url.pathname + url.search`): the path is everything up to
the first `?` or `#` (given a leading `/` when missing, as resolution
against the origin's root path does), the query is what stands between the
first `?` and a `#`.  Percent-encoding normalisation of
`searchParams.toString()` is modelled as the identity. -/

/-- `new URL(endpoint, base).pathname` (see the note above). -/
def urlPathname (endpoint : String) : String :=
  let p := String.mk (endpoint.data.takeWhile (fun c => !(c == '?') && !(c == '#')))
  if p.data.head? = some '/' then p else "/" ++ p

/-- `new URL(endpoint, base).searchParams.toString()`: the query without the
leading `?` (empty when there is no query). -/
def urlSearch (endpoint : String) : String :=
  match endpoint.data.dropWhile (fun c => !(c == '?') && !(c == '#')) with
  | '?' :: rest => String.mk (rest.takeWhile (fun c => !(c == '#')))
  | _ => ""

/-! ### `WaniKaniRequest.generateCacheKey` -/

/-- `JSON.stringify` of the `relevantOptions` object literal
`\x7b method: options.method ?? 'GET', headers: options.headers ?? \x7b\x7d,
body: options.body \x7d`; `JSON.stringify` drops the `body` key when the
value is `undefined`. -/
def relevantOptionsJson (o : ReqOptions) : String :=
  "\x7b\"method\":" ++ quoteStr (o.method.getD "GET")
    ++ ",\"headers\":" ++ headersJson (o.headers.getD [])
    ++ (match o.body with
        | none => ""
        | some b => ",\"body\":" ++ quoteStr b)
    ++ "\x7d"

/-- The `uniqueString` of `generateCacheKey`: `JSON.stringify` of the object
literal with fields `endpoint` (the normalised pathname), `params` (the
serialised query), `options` (the relevant options) and `apiKeyHash` (the
first 8 hex characters of the SHA-256 of the API key), in that order. -/
def uniqueString (H : HashModel) (apiKey : String) (endpoint : String) (o : ReqOptions) : String :=
  "\x7b\"endpoint\":" ++ quoteStr (urlPathname endpoint)
    ++ ",\"params\":" ++ quoteStr (urlSearch endpoint)
    ++ ",\"options\":" ++ relevantOptionsJson o
    ++ ",\"apiKeyHash\":" ++ quoteStr ((H.sha256Hex apiKey).take 8)
    ++ "\x7d"

/-- `WaniKaniRequest.generateCacheKey`: the MD5 hex digest of
`uniqueString`. -/
def generateCacheKey (H : HashModel) (apiKey : String) (endpoint : String) (o : ReqOptions) : String :=
  H.md5Hex (uniqueString H apiKey endpoint o)

/-! ### A decoder for `uniqueString`

`generateCacheKey` hashes the `JSON.stringify` output; to settle the
claims that distinct methods/bodies/paths/credentials produce distinct
digest inputs, the serialisation is shown injective by exhibiting a
decoder (`parseUnique`) and proving it a left inverse. -/

/-- Numeric value of a lower-case hex digit. -/
def hexVal (c : Char) : Nat :=
  if 48 ≤ c.toNat ∧ c.toNat ≤ 57 then c.toNat - 48
  else if 97 ≤ c.toNat ∧ c.toNat ≤ 102 then c.toNat - 87
  else 0

/-- Decoding of a single-character JSON escape. -/
def unescChar (d : Char) : Option Char :=
  if d = '"' then some '"'
  else if d = '\\' then some '\\'
  else if d = 'b' then some (Char.ofNat 8)
  else if d = 't' then some (Char.ofNat 9)
  else if d = 'n' then some (Char.ofNat 10)
  else if d = 'f' then some (Char.ofNat 12)
  else if d = 'r' then some (Char.ofNat 13)
  else none

/-- Decode an escaped JSON string body up to (and consuming) its closing
quote, returning the decoded characters and the remaining input. -/
def parseEsc : List Char → Option (List Char × List Char)
  | [] => none
  | c :: rest =>
    if c = '"' then some ([], rest)
    else if c = '\\' then
      match rest with
      | [] => none
      | d :: rest2 =>
        if d = 'u' then
          match rest2 with
          | c1 :: c2 :: c3 :: c4 :: rest3 =>
            (parseEsc rest3).map (fun p =>
              (Char.ofNat (((hexVal c1 * 16 + hexVal c2) * 16 + hexVal c3) * 16 + hexVal c4)
                :: p.1, p.2))
          | _ => none
        else
          match unescChar d with
          | none => none
          | some e => (parseEsc rest2).map (fun p => (e :: p.1, p.2))
    else (parseEsc rest).map (fun p => (c :: p.1, p.2))

/-- Consume an expected literal. -/
def parseLit : List Char → List Char → Option (List Char)
  | [], s => some s
  | _ :: _, [] => none
  | l :: ls, c :: cs => if l = c then parseLit ls cs else none

/-- Consume a whole quoted JSON string. -/
def parseQuoted : List Char → Option (List Char × List Char)
  | [] => none
  | c :: rest => if c = '"' then parseEsc rest else none

/-- Decode the field list of a stringified headers record, up to (and
consuming) the record's closing brace. -/
def parseHeaderPairs : Nat → List Char → Option (List (String × String) × List Char)
  | 0, _ => none
  | _ + 1, [] => none
  | fuel + 1, c :: rest =>
    if c = '\x7d' then some ([], rest)
    else if c = '"' then
      match parseEsc rest with
      | none => none
      | some (k, rest2) =>
        match rest2 with
        | [] => none
        | c2 :: rest3 =>
          if c2 = ':' then
            match parseQuoted rest3 with
            | none => none
            | some (v, rest4) =>
              match rest4 with
              | [] => none
              | c3 :: rest5 =>
                if c3 = ',' then
                  match parseHeaderPairs fuel rest5 with
                  | none => none
                  | some (ps, r) => some ((String.mk k, String.mk v) :: ps, r)
                else if c3 = '\x7d' then some ([(String.mk k, String.mk v)], rest5)
                else none
          else none
    else none

/-- The fields of `generateCacheKey`'s `uniqueString`. -/
structure UFields where
  pathname : String
  search : String
  method : String
  headers : List (String × String)
  body : Option String
  keyHash : String
deriving DecidableEq

/-- Decode the tail after the options' `apiKeyHash` field. -/
def parseKeyHashTail (p q m : List Char) (hs : List (String × String))
    (b : Option String) (s : List Char) : Option UFields :=
  match parseLit (",\"apiKeyHash\":").data s with
  | none => none
  | some s1 =>
  match parseQuoted s1 with
  | none => none
  | some (h8, _) =>
    some ⟨String.mk p, String.mk q, String.mk m, hs, b, String.mk h8⟩

/-- Decode a `uniqueString` back into its fields. -/
def parseUnique (s : List Char) : Option UFields :=
  match parseLit ("\x7b\"endpoint\":").data s with
  | none => none
  | some s1 =>
  match parseQuoted s1 with
  | none => none
  | some (p, s2) =>
  match parseLit (",\"params\":").data s2 with
  | none => none
  | some s3 =>
  match parseQuoted s3 with
  | none => none
  | some (q, s4) =>
  match parseLit (",\"options\":").data s4 with
  | none => none
  | some s5 =>
  match parseLit ("\x7b\"method\":").data s5 with
  | none => none
  | some s6 =>
  match parseQuoted s6 with
  | none => none
  | some (m, s7) =>
  match parseLit (",\"headers\":").data s7 with
  | none => none
  | some s8 =>
  match s8 with
  | [] => none
  | c0 :: s9 =>
    if c0 = '\x7b' then
      match parseHeaderPairs (s9.length + 1) s9 with
      | none => none
      | some (hs, s10) =>
      match s10 with
      | [] => none
      | c :: s11 =>
        if c = ',' then
          match parseLit ("\"body\":").data s11 with
          | none => none
          | some s12 =>
          match parseQuoted s12 with
          | none => none
          | some (b, s13) =>
          match s13 with
          | [] => none
          | c2 :: s14 =>
            if c2 = '\x7d' then parseKeyHashTail p q m hs (some (String.mk b)) s14
            else none
        else if c = '\x7d' then parseKeyHashTail p q m hs none s11
        else none
    else none

/-! ### Cache entries and their structural validation -/

/-- The `CacheData<T>` shape (`types/cache.ts`): the payload plus the two
optional revalidation headers. -/
structure CacheData where
  data : Json
  etag : Option String
  lastModified : Option String
deriving DecidableEq

/-- `WaniKaniRequest.hasDataProperty`: `'data' in data`. -/
def hasDataProperty (kvs : List (String × Json)) : Bool :=
  (jsonLookup kvs "data").isSome

/-- `WaniKaniRequest.hasValidOptionalString`: the key is absent or its value
is a string.  (`JSON.parse` never produces `undefined`, so the
`obj[key] === undefined` disjunct of the source cannot fire on parsed
data.) -/
def hasValidOptionalString (kvs : List (String × Json)) (key : String) : Bool :=
  match jsonLookup kvs key with
  | none => true
  | some (Json.str _) => true
  | some _ => false

/-- `WaniKaniRequest.isCacheData`: a non-null object with a `data` field
whose `etag`/`lastModified`, when present, are strings.  (A JSON array has
no such named fields, so the `typeof data === 'object'` test on an array
falls through to `false` here exactly as in the source.) -/
def isCacheData : Json → Bool
  | Json.obj kvs =>
    hasDataProperty kvs && hasValidOptionalString kvs "etag"
      && hasValidOptionalString kvs "lastModified"
  | _ => false

/-- Reading the `data`/`etag`/`lastModified` properties off a validated
cache object (the source returns the parsed value itself, typed as
`CacheData<T>`; property access is what its callers then do). -/
def extractCacheData : Json → CacheData
  | Json.obj kvs =>
    { data := (jsonLookup kvs "data").getD Json.null
      etag := match jsonLookup kvs "etag" with
        | some (Json.str s) => some s
        | _ => none
      lastModified := match jsonLookup kvs "lastModified" with
        | some (Json.str s) => some s
        | _ => none }
  | _ => ⟨Json.null, none, none⟩

/-- The JSON object `setCache` serialises: `JSON.stringify` drops the
`etag`/`lastModified` keys when their value is `undefined`. -/
def cacheDataToJson (c : CacheData) : Json :=
  Json.obj ([("data", c.data)]
    ++ (match c.etag with | none => [] | some s => [("etag", Json.str s)])
    ++ (match c.lastModified with | none => [] | some s => [("lastModified", Json.str s)]))

/-! ### The cache directory -/

/-- One entry of the cache directory: its file name, whether it is a regular
file (`Dirent.isFile`), its last-write time `mtimeMs`, and the result of
`JSON.parse` on its bytes (`none` models unparseable content). -/
structure DirEntry where
  name : String
  isFile : Bool
  mtime : Int
  content : Option Json
deriving DecidableEq

/-- The cache directory as a listing.  (All paths the source touches live in
the one configured `cacheDir`, so entries are keyed by bare file name and
`path.join(this.cacheDir, name)` is elided.) -/
abbrev FS := List DirEntry

/-- `fs.stat` on a name in the cache directory: `none` models the promise
rejecting (no such file). -/
def statFS (fs : FS) (name : String) : Option DirEntry :=
  fs.find? (fun e => e.name == name)

/-- `fs.unlink`: the named entry is removed. -/
def fsRemove (fs : FS) (name : String) : FS :=
  fs.filter (fun e => !(e.name == name))

/-- `fs.writeFile`: create or truncate the named regular file, with a fresh
last-write time. -/
def fsWrite (fs : FS) (name : String) (j : Json) (now : Int) : FS :=
  ⟨name, true, now, some j⟩ :: fsRemove fs name

/-- `WaniKaniRequest.getCached`: stat the cache file, compare its age
(`Date.now() - stats.mtimeMs`) against the TTL, parse and validate; every
failure (missing file, stale file, parse error, invalid shape) is caught
and collapses to `none`. -/
def getCached (H : HashModel) (apiKey : String) (endpoint : String) (o : ReqOptions)
    (ttl : Int) (fs : FS) (now : Int) : Option CacheData :=
  let file := generateCacheKey H apiKey endpoint o ++ ".json"
  match statFS fs file with
  | none => none
  | some e =>
    if now - e.mtime < ttl then
      match e.content with
      | none => none
      | some j => if isCacheData j then some (extractCacheData j) else none
    else none

/-! ### Headers -/

/-- Setting one key of a JavaScript string-keyed record: an existing key is
overwritten in place, a new key is appended. -/
def recordSet (r : List (String × String)) (k v : String) : List (String × String) :=
  if r.any (fun p => p.1 == k) then r.map (fun p => if p.1 = k then (k, v) else p)
  else r ++ [(k, v)]

/-- JavaScript object spread `\x7b ...base, ...custom \x7d`. -/
def mergeRecord (base custom : List (String × String)) : List (String × String) :=
  custom.foldl (fun acc p => recordSet acc p.1 p.2) base

/-- `WaniKaniRequest.prepareHeaders`: the bearer token, content type and API
revision, with caller-supplied headers spread on top.  (The source's
`typeof value === 'string'` filter is the identity here because headers are
modelled string-valued, as their TypeScript type prescribes.) -/
def prepareHeaders (apiKey apiRevision : String) (o : ReqOptions) : List (String × String) :=
  let base := [("Authorization", "Bearer " ++ apiKey),
               ("Content-Type", "application/json"),
               ("Wanikani-Revision", apiRevision)]
  match o.headers with
  | none => base
  | some hs => mergeRecord base hs

/-- `WaniKaniRequest.addConditionalHeaders`: attach `If-None-Match` from a
defined non-empty `etag` and `If-Modified-Since` from a defined non-empty
`lastModified`. -/
def addConditionalHeaders (headers : List (String × String)) (c : CacheData) :
    List (String × String) :=
  let h1 := match c.etag with
    | some et => if et.length > 0 then recordSet headers "If-None-Match" et else headers
    | none => headers
  match c.lastModified with
  | some lm => if lm.length > 0 then recordSet h1 "If-Modified-Since" lm else h1
  | none => h1

/-! ### Responses -/

instance {ε α : Type} [DecidableEq ε] [DecidableEq α] : DecidableEq (Except ε α) := fun a b =>
  match a, b with
  | Except.error x, Except.error y =>
    if h : x = y then isTrue (by rw [h]) else isFalse (by intro he; injection he; contradiction)
  | Except.error _, Except.ok _ => isFalse (by intro he; injection he)
  | Except.ok _, Except.error _ => isFalse (by intro he; injection he)
  | Except.ok x, Except.ok y =>
    if h : x = y then isTrue (by rw [h]) else isFalse (by intro he; injection he; contradiction)

/-- A settled `fetch` response: the status, the `ETag` and `Last-Modified`
response headers, and the result of `response.json()` (`Except` error models
the body failing to parse). -/
structure NetResponse where
  status : Int
  etag : Option String
  lastModified : Option String
  body : Except String Json
deriving DecidableEq

/-- `Response.ok` (fetch specification): status in the range 200–299. -/
def respOk (r : NetResponse) : Bool :=
  200 ≤ r.status && r.status < 300

/-- `WaniKaniRequest.isApiResponse`: a non-null object with `object`, `url`
and `data` fields. -/
def isApiResponse : Json → Bool
  | Json.obj kvs =>
    (jsonLookup kvs "object").isSome && (jsonLookup kvs "url").isSome
      && (jsonLookup kvs "data").isSome
  | _ => false

/-- `parsed.data` on a validated envelope. -/
def getData : Json → Json
  | Json.obj kvs => (jsonLookup kvs "data").getD Json.null
  | _ => Json.null

/-- The errors `request` can reject with. -/
inductive ReqError where
  /-- `new Error('Cache miss on 304 response')` -/
  | cacheMiss304
  /-- ``new Error(`HTTP error! status: ...`)`` carrying the status -/
  | httpError (status : Int)
  /-- `response.json()` rejected (malformed body) -/
  | bodyParse (msg : String)
  /-- `new Error('Invalid response format')` -/
  | invalidFormat
  /-- the `fetch` promise itself rejected (transport failure) -/
  | transport (msg : String)
  /-- `fs.writeFile` rejected inside `setCache` and propagated -/
  | writeFailed
deriving DecidableEq

/-- `WaniKaniRequest.handleResponse`: a 304 returns the cached payload and
demands that one exists; a non-ok status is an HTTP error; otherwise the
body is parsed and must be a structurally valid envelope, whose `data` field
is returned. -/
def handleResponse (resp : NetResponse) (cached : Option CacheData) : Except ReqError Json :=
  if resp.status = 304 then
    match cached with
    | none => Except.error ReqError.cacheMiss304
    | some c => Except.ok c.data
  else if !(respOk resp) then Except.error (ReqError.httpError resp.status)
  else
    match resp.body with
    | Except.error msg => Except.error (ReqError.bodyParse msg)
    | Except.ok parsed =>
      if isApiResponse parsed then Except.ok (getData parsed)
      else Except.error ReqError.invalidFormat

/-! ### `WaniKaniRequest.request` -/

/-- The key of one `key=value` item of a query string. -/
def paramKey (p : String) : String :=
  String.mk (p.data.takeWhile (fun c => !(c == '=')))

/-- `URLSearchParams.set` on the item list: overwrite the first item with
the same key (dropping later duplicates), else append. -/
def setParamList : List String → String → List String
  | [], item => [item]
  | p :: ps, item =>
    if paramKey p = paramKey item then
      item :: ps.filter (fun q => !(paramKey q == paramKey item))
    else p :: setParamList ps item

/-- Re-serialise a query item list. -/
def joinAmp : List String → String
  | [] => ""
  | [p] => p
  | p :: ps => p ++ "&" ++ joinAmp ps

/-- `buildRequestUrl`'s `searchParams.set('updated_after', iso)` applied to
the query string (percent-encoding of the serialisation is modelled as the
identity; the `updatedAfter` date is modelled by its ISO string). -/
def searchSetUA (search : String) (ua : Option String) : String :=
  match ua with
  | none => search
  | some iso =>
    let ps := if search = "" then [] else search.splitOn "&"
    joinAmp (setParamList ps ("updated_after=" ++ iso))

/-- `url.pathname + url.search` of the built request URL: the string both
`handleCachedResponse` and `updateCache` hand to the cache layer.
(`url.search` carries a leading `?` exactly when the query is
non-empty.) -/
def requestKeyString (endpoint : String) (ua : Option String) : String :=
  let p := urlPathname endpoint
  let s := searchSetUA (urlSearch endpoint) ua
  p ++ (if s = "" then "" else "?" ++ s)

/-- The `context.options` object of `request`:
`\x7b method: 'GET', ...options, headers \x7d`, where `headers` is the object
returned by `prepareHeaders` — merged base and caller headers — which
`addConditionalHeaders` further mutates on a cache hit before the object is
used (the mutation happens prior to both the `fetch` call and the
`updateCache` write).  Its `method` is the caller's method or `'GET'`, its
`headers` is that merged (and possibly conditional-extended) record, its
`body` is the caller's body. -/
def contextOptions (apiKey apiRevision : String) (o : ReqOptions)
    (cached : Option CacheData) : ReqOptions :=
  ⟨some (o.method.getD "GET"),
    some (match cached with
      | none => prepareHeaders apiKey apiRevision o
      | some c => addConditionalHeaders (prepareHeaders apiKey apiRevision o) c),
    o.body⟩

/-- The cache file name a `request` call READS: `handleCachedResponse` passes
the RAW caller options to `getCached`, so the read fingerprint hashes
`options.headers ?? \x7b\x7d`. -/
def requestReadFile (H : HashModel) (apiKey : String) (endpoint : String)
    (o : ReqOptions) (ua : Option String) : String :=
  generateCacheKey H apiKey (requestKeyString endpoint ua) o ++ ".json"

/-- The cache file name a `request` call WRITES: `updateCache` passes
`context.options` to `setCache`, so the write fingerprint hashes the merged
header record (plus any conditional headers attached for this call).  It
differs from `requestReadFile` unless the caller's raw header record
coincides with that merged record. -/
def requestWriteFile (H : HashModel) (apiKey apiRevision : String) (endpoint : String)
    (o : ReqOptions) (ua : Option String) (cached : Option CacheData) : String :=
  generateCacheKey H apiKey (requestKeyString endpoint ua)
    (contextOptions apiKey apiRevision o cached) ++ ".json"

/-- One observable cache-layer action of a call. -/
inductive CacheOp where
  /-- `getCached` touched the store (stat/read of the named file) -/
  | read (file : String)
  /-- `setCache` persisted the named file with this entry -/
  | write (file : String) (entry : CacheData)
deriving DecidableEq

/-- The ambient outcome of one call: the wall clock, the settled `fetch`
result (`Except` error models the promise rejecting at transport level) and
whether `fs.writeFile` would reject. -/
structure Env where
  now : Int
  fetchResult : Except String NetResponse
  writeFails : Bool

/-- What one `request` call produces: the settled result, the cache
directory afterwards, the cache-layer actions taken, and the headers the
network call was issued with. -/
structure ReqResult where
  result : Except ReqError Json
  fs : FS
  ops : List CacheOp
  sentHeaders : List (String × String)

/-- `WaniKaniRequest.request`: prepare headers, build the URL, consult the
cache when TTL > 0 (attaching conditional headers on a hit), always issue
the network call with `context.options`, reconcile via `handleResponse`,
then `updateCache` (which writes exactly when TTL > 0, and whose
`fs.writeFile` rejection propagates to the caller — there is no try/catch on
this path in the source).  Note the source's fingerprint asymmetry, kept
faithfully here: the cache READ passes the raw `options` to `getCached`
(`handleCachedResponse(url, options, ttl, headers)`), while the cache WRITE
passes `context.options` to `setCache` (`updateCache(context, ...)`), whose
`headers` field is the merged `prepareHeaders` record — mutated in place by
`addConditionalHeaders` on a cache hit — so the file written is
`requestWriteFile`, generally distinct from the `requestReadFile` that was
read. -/
def request (H : HashModel) (apiKey apiRevision : String) (endpoint : String)
    (o : ReqOptions) (ttl : Int) (ua : Option String) (fs : FS) (env : Env) : ReqResult :=
  let keyStr := requestKeyString endpoint ua
  let cached := if ttl > 0 then getCached H apiKey keyStr o ttl fs env.now else none
  let ctx := contextOptions apiKey apiRevision o cached
  let headers := ctx.headers.getD []
  let readOps : List CacheOp :=
    if ttl > 0 then [CacheOp.read (generateCacheKey H apiKey keyStr o ++ ".json")] else []
  let writeFile := generateCacheKey H apiKey keyStr ctx ++ ".json"
  match env.fetchResult with
  | Except.error msg => ⟨Except.error (ReqError.transport msg), fs, readOps, headers⟩
  | Except.ok resp =>
    match handleResponse resp cached with
    | Except.error e => ⟨Except.error e, fs, readOps, headers⟩
    | Except.ok data =>
      if ttl > 0 then
        if env.writeFails then ⟨Except.error ReqError.writeFailed, fs, readOps, headers⟩
        else
          let entry : CacheData := ⟨data, resp.etag, resp.lastModified⟩
          ⟨Except.ok data, fsWrite fs writeFile (cacheDataToJson entry) env.now,
            readOps ++ [CacheOp.write writeFile entry], headers⟩
      else ⟨Except.ok data, fs, readOps, headers⟩

/-- Repeated `request` calls with the same arguments, threading the cache
directory through; each call runs under its own environment. -/
def requestIter (H : HashModel) (apiKey apiRevision : String) (endpoint : String)
    (o : ReqOptions) (ttl : Int) (ua : Option String) : List Env → FS → FS
  | [], fs => fs
  | env :: rest, fs =>
    requestIter H apiKey apiRevision endpoint o ttl ua rest
      (request H apiKey apiRevision endpoint o ttl ua fs env).fs

/-! ### `cleanOldCaches` -/

/-- `WaniKaniRequest.cleanCacheFile`: stat the file and unlink it when its
age strictly exceeds `maxAge`; a rejection of either operation (the
`statFails`/`unlinkFails` oracles) is caught and the file is skipped. -/
def cleanCacheFile (now maxAge : Int) (statFails unlinkFails : String → Bool)
    (fs : FS) (name : String) : FS :=
  if statFails name then fs
  else match statFS fs name with
    | none => fs
    | some e =>
      if now - e.mtime > maxAge then
        if unlinkFails name then fs else fsRemove fs name
      else fs

/-- `String.endsWith`, modelled over the character list (the builtin walks
byte positions; the semantics is suffix comparison). -/
def strEndsWith (s suff : String) : Bool :=
  List.isSuffixOf suff.data s.data

/-- `WaniKaniRequest.cleanOldCaches`: enumerate the directory (a rejection
of `fs.readdir` — the `readdirFails` oracle — is caught, a warning logged,
and the directory left untouched), keep the regular files named `*.json`,
and clean each.  The `Promise.all` over per-file cleanups is modelled as a
fold: each cleanup touches only its own file name. -/
def cleanOldCaches (now maxAge : Int) (readdirFails : Bool)
    (statFails unlinkFails : String → Bool) (fs : FS) : FS :=
  if readdirFails then fs
  else
    let jsonFiles := (fs.filter (fun e => e.isFile && strEndsWith e.name ".json")).map DirEntry.name
    jsonFiles.foldl (cleanCacheFile now maxAge statFails unlinkFails) fs

/-! ### Concrete scenario fixtures (used by witnesses and counterexamples) -/

/-- Empty request options (`request` called with no `RequestInit` fields). -/
def exOpts : ReqOptions := ⟨none, none, none⟩

/-- A structurally valid response envelope whose payload is the string
"payload". -/
def exEnvelope : Json :=
  Json.obj [("object", Json.str "collection"), ("url", Json.str "u"),
    ("data", Json.str "payload")]

/-- The READ-fingerprint cache file name of the fixture request `GET /s`
with empty options. -/
def exFile : String := requestReadFile idHash "k" "/s" exOpts none

/-- A cache directory holding one entry at the read fingerprint of the
fixture request, written at time 0 with payload "v" and ETag "e". -/
def exFs0 : FS :=
  [⟨exFile, true, 0, some (cacheDataToJson ⟨Json.str "v", some "e", none⟩)⟩]

/-- Caller headers that exactly reproduce the merged `prepareHeaders` record
for apiKey "k" and revision "r" (same keys, values and order). -/
def exHdrs : List (String × String) :=
  [("Authorization", "Bearer k"), ("Content-Type", "application/json"),
    ("Wanikani-Revision", "r")]

/-- Options whose raw header record coincides with the merged record — the
corner case in which the read and write fingerprints agree. -/
def exOptsH : ReqOptions := ⟨none, some exHdrs, none⟩

/-- A cache directory holding one validator-free entry (no etag, no
lastModified — so no conditional headers get attached) at the read
fingerprint of the `exOptsH` request, written at time 0. -/
def exFs1 : FS :=
  [⟨requestReadFile idHash "k" "/s" exOptsH none, true, 0,
    some (cacheDataToJson ⟨Json.str "v", none, none⟩)⟩]

/-- Environment: clock 5, network answers 304 (no validator headers), cache
writes succeed. -/
def exEnv304 : Env := ⟨5, Except.ok ⟨304, none, none, Except.ok Json.null⟩, false⟩

/-- Environment: clock 0, network answers 200 with the valid fixture
envelope and an ETag, cache writes succeed. -/
def exEnv200 : Env := ⟨0, Except.ok ⟨200, some "E", none, Except.ok exEnvelope⟩, false⟩

/-- Environment: network answers 200 with the valid fixture envelope, but
the cache write rejects (e.g. disk full). -/
def exEnvW : Env := ⟨0, Except.ok ⟨200, some "E", none, Except.ok exEnvelope⟩, true⟩

/-! ### Helper lemmas: strings and escaping -/

theorem data_append (a b : String) : (a ++ b).data = a.data ++ b.data := by
  cases a; cases b; rfl

theorem mk_data (s : String) : String.mk s.data = s := rfl

theorem hexVal_hexDigitChar : ∀ x < 16, hexVal (hexDigitChar x) = x := by decide

theorem escChar_eq_self {c : Char} (h1 : c ≠ '"') (h2 : c ≠ '\\') (h3 : 32 ≤ c.toNat) :
    escChar c = [c] := by
  have e8 : c ≠ Char.ofNat 8 := by intro h; subst h; exact absurd h3 (by decide)
  have e9 : c ≠ Char.ofNat 9 := by intro h; subst h; exact absurd h3 (by decide)
  have e10 : c ≠ Char.ofNat 10 := by intro h; subst h; exact absurd h3 (by decide)
  have e12 : c ≠ Char.ofNat 12 := by intro h; subst h; exact absurd h3 (by decide)
  have e13 : c ≠ Char.ofNat 13 := by intro h; subst h; exact absurd h3 (by decide)
  have h32 : ¬ c.toNat < 32 := by omega
  simp [escChar, h1, h2, e8, e9, e10, e12, e13, h32]

theorem parseEsc_cons_quote (r : List Char) : parseEsc ('"' :: r) = some ([], r) := by
  rw [parseEsc.eq_def]
  rfl

theorem parseEsc_cons_slash (d : Char) (r : List Char) (hd : d ≠ 'u') :
    parseEsc ('\\' :: d :: r) =
      match unescChar d with
      | none => none
      | some e => (parseEsc r).map (fun p => (e :: p.1, p.2)) := by
  rw [parseEsc.eq_def]
  simp [hd, (by decide : ¬ (('\\' : Char) = '"'))]

theorem parseEsc_slash_decoded (d e : Char) (r : List Char) (hd : d ≠ 'u')
    (hu : unescChar d = some e) :
    parseEsc ('\\' :: d :: r) = (parseEsc r).map (fun p => (e :: p.1, p.2)) := by
  rw [parseEsc_cons_slash d r hd, hu]

theorem parseEsc_cons_u (c1 c2 c3 c4 : Char) (r : List Char) :
    parseEsc ('\\' :: 'u' :: c1 :: c2 :: c3 :: c4 :: r) =
      (parseEsc r).map (fun p =>
        (Char.ofNat (((hexVal c1 * 16 + hexVal c2) * 16 + hexVal c3) * 16 + hexVal c4)
          :: p.1, p.2)) := by
  rw [parseEsc.eq_def]
  simp [(by decide : ¬ (('\\' : Char) = '"'))]

theorem parseEsc_cons_plain {c : Char} (r : List Char) (h1 : c ≠ '"') (h2 : c ≠ '\\') :
    parseEsc (c :: r) = (parseEsc r).map (fun p => (c :: p.1, p.2)) := by
  rw [parseEsc.eq_def]
  simp [h1, h2]

theorem parseEsc_escape (s t : List Char) :
    parseEsc (escapeChars s ++ '"' :: t) = some (s, t) := by
  induction s with
  | nil => exact parseEsc_cons_quote t
  | cons c cs ih =>
    show parseEsc (escChar c ++ escapeChars cs ++ '"' :: t) = _
    by_cases h1 : c = '"'
    · subst h1
      rw [show escChar '"' = ['\\', '"'] from by decide]
      show parseEsc ('\\' :: '"' :: (escapeChars cs ++ '"' :: t)) = _
      rw [parseEsc_slash_decoded '"' '"' _ (by decide) (by decide), ih]; rfl
    · by_cases h2 : c = '\\'
      · subst h2
        rw [show escChar '\\' = ['\\', '\\'] from by decide]
        show parseEsc ('\\' :: '\\' :: (escapeChars cs ++ '"' :: t)) = _
        rw [parseEsc_slash_decoded '\\' '\\' _ (by decide) (by decide), ih]; rfl
      · by_cases h8 : c = Char.ofNat 8
        · subst h8
          rw [show escChar (Char.ofNat 8) = ['\\', 'b'] from by decide]
          show parseEsc ('\\' :: 'b' :: (escapeChars cs ++ '"' :: t)) = _
          rw [parseEsc_slash_decoded 'b' (Char.ofNat 8) _ (by decide) (by decide), ih]; rfl
        · by_cases h9 : c = Char.ofNat 9
          · subst h9
            rw [show escChar (Char.ofNat 9) = ['\\', 't'] from by decide]
            show parseEsc ('\\' :: 't' :: (escapeChars cs ++ '"' :: t)) = _
            rw [parseEsc_slash_decoded 't' (Char.ofNat 9) _ (by decide) (by decide), ih]; rfl
          · by_cases h10 : c = Char.ofNat 10
            · subst h10
              rw [show escChar (Char.ofNat 10) = ['\\', 'n'] from by decide]
              show parseEsc ('\\' :: 'n' :: (escapeChars cs ++ '"' :: t)) = _
              rw [parseEsc_slash_decoded 'n' (Char.ofNat 10) _ (by decide) (by decide), ih]; rfl
            · by_cases h12 : c = Char.ofNat 12
              · subst h12
                rw [show escChar (Char.ofNat 12) = ['\\', 'f'] from by decide]
                show parseEsc ('\\' :: 'f' :: (escapeChars cs ++ '"' :: t)) = _
                rw [parseEsc_slash_decoded 'f' (Char.ofNat 12) _ (by decide) (by decide), ih]; rfl
              · by_cases h13 : c = Char.ofNat 13
                · subst h13
                  rw [show escChar (Char.ofNat 13) = ['\\', 'r'] from by decide]
                  show parseEsc ('\\' :: 'r' :: (escapeChars cs ++ '"' :: t)) = _
                  rw [parseEsc_slash_decoded 'r' (Char.ofNat 13) _ (by decide) (by decide), ih]; rfl
                · by_cases h32 : c.toNat < 32
                  · have hesc : escChar c =
                        ['\\', 'u', '0', '0', hexDigitChar (c.toNat / 16),
                          hexDigitChar (c.toNat % 16)] := by
                      simp [escChar, h1, h2, h8, h9, h10, h12, h13, h32]
                    rw [hesc]
                    show parseEsc ('\\' :: 'u' :: '0' :: '0' :: hexDigitChar (c.toNat / 16)
                      :: hexDigitChar (c.toNat % 16) :: (escapeChars cs ++ '"' :: t)) = _
                    rw [parseEsc_cons_u, ih]
                    have hdiv : hexVal (hexDigitChar (c.toNat / 16)) = c.toNat / 16 :=
                      hexVal_hexDigitChar _ (by omega)
                    have hmod : hexVal (hexDigitChar (c.toNat % 16)) = c.toNat % 16 :=
                      hexVal_hexDigitChar _ (by omega)
                    rw [show hexVal '0' = 0 from by decide, hdiv, hmod]
                    have hsum : (0 * 16 + 0) * 16 + c.toNat / 16 = c.toNat / 16 := by omega
                    rw [hsum]
                    rw [show c.toNat / 16 * 16 + c.toNat % 16 = c.toNat from by omega]
                    rw [Char.ofNat_toNat]
                    rfl
                  · have hesc : escChar c = [c] :=
                      escChar_eq_self h1 h2 (by omega)
                    rw [hesc]
                    show parseEsc (c :: (escapeChars cs ++ '"' :: t)) = _
                    rw [parseEsc_cons_plain _ h1 h2, ih]; rfl

theorem parseLit_self (l r : List Char) : parseLit l (l ++ r) = some r := by
  induction l with
  | nil => rfl
  | cons c cs ih =>
    show parseLit (c :: cs) (c :: (cs ++ r)) = some r
    rw [parseLit.eq_def]
    simp [ih]

theorem parseQuoted_escape (s t : List Char) :
    parseQuoted ('"' :: (escapeChars s ++ '"' :: t)) = some (s, t) := by
  rw [parseQuoted.eq_def]
  simp [parseEsc_escape]

theorem quoteStr_data (s : String) :
    (quoteStr s).data = '"' :: (escapeChars s.data ++ ['"']) := rfl

theorem dataColon : (":").data = [':'] := rfl

theorem dataCommaOne : (",").data = [','] := rfl

theorem headersJsonBody_length :
    ∀ hs : List (String × String), hs.length ≤ (headersJsonBody hs).data.length := by
  intro hs
  induction hs with
  | nil => simp
  | cons p tl ih =>
    obtain ⟨k, v⟩ := p
    cases tl with
    | nil =>
      simp [headersJsonBody, data_append, quoteStr_data, dataColon]
    | cons q tl2 =>
      have hb : headersJsonBody ((k, v) :: q :: tl2) =
          quoteStr k ++ ":" ++ quoteStr v ++ "," ++ headersJsonBody (q :: tl2) := rfl
      rw [hb]
      simp only [data_append, quoteStr_data, dataColon, dataCommaOne, List.length_append,
        List.length_cons, List.length_nil]
      simp only [List.length_cons] at ih
      omega

theorem parseHeaderPairs_body :
    ∀ (hs : List (String × String)) (fuel : Nat) (t : List Char), hs.length < fuel →
      parseHeaderPairs fuel ((headersJsonBody hs).data ++ '\x7d' :: t) = some (hs, t) := by
  intro hs
  induction hs with
  | nil =>
    intro fuel t h
    cases fuel with
    | zero => omega
    | succ f =>
      show parseHeaderPairs (f + 1) ('\x7d' :: t) = some ([], t)
      rw [parseHeaderPairs.eq_def]
      simp
  | cons p tl ih =>
    intro fuel t h
    obtain ⟨k, v⟩ := p
    cases fuel with
    | zero => omega
    | succ f =>
      cases tl with
      | nil =>
        have hd : (headersJsonBody [(k, v)]).data ++ '\x7d' :: t =
            '"' :: (escapeChars k.data ++ '"' :: (':' :: ('"' :: (escapeChars v.data
              ++ '"' :: ('\x7d' :: t))))) := by
          simp [headersJsonBody, data_append, quoteStr_data, dataColon]
        rw [hd, parseHeaderPairs.eq_def]
        simp [parseEsc_escape, parseQuoted_escape, mk_data]
      | cons q tl2 =>
        have hb : headersJsonBody ((k, v) :: q :: tl2) =
            quoteStr k ++ ":" ++ quoteStr v ++ "," ++ headersJsonBody (q :: tl2) := rfl
        have hd : (headersJsonBody ((k, v) :: q :: tl2)).data ++ '\x7d' :: t =
            '"' :: (escapeChars k.data ++ '"' :: (':' :: ('"' :: (escapeChars v.data
              ++ '"' :: (',' :: ((headersJsonBody (q :: tl2)).data ++ '\x7d' :: t)))))) := by
          rw [hb]
          simp [data_append, quoteStr_data, dataColon, dataCommaOne]
        rw [hd, parseHeaderPairs.eq_def]
        have hrec := ih f t (by simp only [List.length_cons] at h ⊢; omega)
        simp [parseEsc_escape, parseQuoted_escape, mk_data, hrec]

theorem dataLB : ("\x7b").data = ['\x7b'] := rfl

theorem dataRB : ("\x7d").data = ['\x7d'] := rfl

theorem dataBodyKey : (",\"body\":").data = ',' :: ("\"body\":").data := rfl

theorem parseHeaderPairs_fuelAdd (hs : List (String × String)) (t : List Char) (k : Nat) :
    parseHeaderPairs ((headersJsonBody hs).length + k + 1)
      ((headersJsonBody hs).data ++ '\x7d' :: t) = some (hs, t) := by
  apply parseHeaderPairs_body
  have h1 := headersJsonBody_length hs
  have h2 := String.length_data (headersJsonBody hs)
  omega

theorem parseUnique_uniqueString (H : HashModel) (key e : String) (o : ReqOptions) :
    parseUnique (uniqueString H key e o).data =
      some ⟨urlPathname e, urlSearch e, o.method.getD "GET", o.headers.getD [],
        o.body, (H.sha256Hex key).take 8⟩ := by
  obtain ⟨om, oh, ob⟩ := o
  cases ob with
  | none =>
    simp only [uniqueString, relevantOptionsJson, headersJson, quoteStr_data, data_append,
      dataLB, dataRB, dataBodyKey, List.append_assoc, List.cons_append,
      List.singleton_append, List.nil_append]
    simp [parseUnique, parseKeyHashTail, parseLit, parseLit_self, parseQuoted_escape,
      parseHeaderPairs_fuelAdd, mk_data, String.take_eq]
  | some b =>
    simp only [uniqueString, relevantOptionsJson, headersJson, quoteStr_data, data_append,
      dataLB, dataRB, dataBodyKey, List.append_assoc, List.cons_append,
      List.singleton_append, List.nil_append]
    simp [parseUnique, parseKeyHashTail, parseLit, parseLit_self, parseQuoted_escape,
      parseHeaderPairs_fuelAdd, mk_data, String.take_eq]

/-! ### Helper lemmas: fingerprints -/

theorem uniqueString_fields (H : HashModel) {k1 k2 e1 e2 : String} {o1 o2 : ReqOptions}
    (h : uniqueString H k1 e1 o1 = uniqueString H k2 e2 o2) :
    urlPathname e1 = urlPathname e2 ∧ urlSearch e1 = urlSearch e2 ∧
      o1.method.getD "GET" = o2.method.getD "GET" ∧ o1.headers.getD [] = o2.headers.getD [] ∧
      o1.body = o2.body ∧ (H.sha256Hex k1).take 8 = (H.sha256Hex k2).take 8 := by
  have h1 := parseUnique_uniqueString H k1 e1 o1
  have h2 := parseUnique_uniqueString H k2 e2 o2
  rw [h, h2] at h1
  have := Option.some.inj h1
  rw [UFields.mk.injEq] at this
  obtain ⟨a, b, c, d, e, f⟩ := this
  exact ⟨a.symm, b.symm, c.symm, d.symm, e.symm, f.symm⟩

/-! ### Helper lemmas: cache entries -/

theorem isCacheData_cacheDataToJson (c : CacheData) :
    isCacheData (cacheDataToJson c) = true := by
  obtain ⟨d, et, lm⟩ := c
  cases et <;> cases lm <;>
    simp [cacheDataToJson, isCacheData, hasDataProperty, hasValidOptionalString, jsonLookup]

theorem extractCacheData_cacheDataToJson (c : CacheData) :
    extractCacheData (cacheDataToJson c) = c := by
  obtain ⟨d, et, lm⟩ := c
  cases et <;> cases lm <;> simp [cacheDataToJson, extractCacheData, jsonLookup]

theorem statFS_fsWrite_self (fs : FS) (name : String) (j : Json) (now : Int) :
    statFS (fsWrite fs name j now) name = some ⟨name, true, now, some j⟩ := by
  simp [statFS, fsWrite, List.find?]

theorem getCached_after_write (H : HashModel) (apiKey endpoint : String) (o : ReqOptions)
    (ttl : Int) (fs : FS) (now1 now2 : Int) (c : CacheData) (hfresh : now2 - now1 < ttl) :
    getCached H apiKey endpoint o ttl
      (fsWrite fs (generateCacheKey H apiKey endpoint o ++ ".json") (cacheDataToJson c) now1)
      now2 = some c := by
  simp only [getCached]
  rw [statFS_fsWrite_self]
  simp [hfresh, isCacheData_cacheDataToJson, extractCacheData_cacheDataToJson]

/-! ### Helper lemmas: pruning -/

theorem fsRemove_mem (fs : FS) (n : String) (e : DirEntry) :
    e ∈ fsRemove fs n ↔ e ∈ fs ∧ ¬(e.name = n) := by
  simp [fsRemove, List.mem_filter]

theorem nodup_names_inj {fs : FS} (hnd : (fs.map DirEntry.name).Nodup)
    {e1 e2 : DirEntry} (h1 : e1 ∈ fs) (h2 : e2 ∈ fs) (hn : e1.name = e2.name) : e1 = e2 :=
  List.inj_on_of_nodup_map hnd h1 h2 hn

theorem statFS_none_mem (fs : FS) (n : String) (h : statFS fs n = none) :
    ∀ e ∈ fs, ¬(e.name = n) := by
  intro e he
  have := List.find?_eq_none.1 h e he
  simpa using this

theorem statFS_some_mem (fs : FS) (n : String) (e : DirEntry) (h : statFS fs n = some e) :
    e ∈ fs ∧ e.name = n := by
  refine ⟨List.mem_of_find?_eq_some h, ?_⟩
  have := List.find?_some h
  simpa using this

theorem cleanCacheFile_mem (now maxAge : Int) (sf uf : String → Bool) (fs : FS) (n : String)
    (hnd : (fs.map DirEntry.name).Nodup) (e : DirEntry) :
    e ∈ cleanCacheFile now maxAge sf uf fs n ↔
      e ∈ fs ∧ ¬(e.name = n ∧ sf n = false ∧ now - e.mtime > maxAge ∧ uf n = false) := by
  unfold cleanCacheFile
  by_cases hsf : sf n = false
  · rw [if_neg (by simp [hsf])]
    cases hst : statFS fs n with
    | none =>
      have hno := statFS_none_mem fs n hst
      constructor
      · intro he
        exact ⟨he, fun hc => hno e he hc.1⟩
      · intro hp
        exact hp.1
    | some e1 =>
      obtain ⟨he1, hn1⟩ := statFS_some_mem fs n e1 hst
      show (e ∈ (if now - e1.mtime > maxAge then if uf n = true then fs else fsRemove fs n
          else fs)) ↔
        e ∈ fs ∧ ¬(e.name = n ∧ sf n = false ∧ now - e.mtime > maxAge ∧ uf n = false)
      by_cases hage : now - e1.mtime > maxAge
      · rw [if_pos hage]
        by_cases huf : uf n = false
        · rw [if_neg (by simp [huf])]
          rw [fsRemove_mem]
          constructor
          · rintro ⟨he, hne⟩
            exact ⟨he, fun hc => hne hc.1⟩
          · rintro ⟨he, hc⟩
            refine ⟨he, ?_⟩
            intro hen
            have heq : e = e1 := nodup_names_inj hnd he he1 (by rw [hen, hn1])
            exact hc ⟨hen, hsf, by rw [heq]; exact hage, huf⟩
        · rw [if_pos (by simpa using huf)]
          simp only [Bool.not_eq_false] at huf
          simp [huf]
      · rw [if_neg hage]
        constructor
        · intro he
          refine ⟨he, ?_⟩
          rintro ⟨hen, _, hagee, _⟩
          have heq : e = e1 := nodup_names_inj hnd he he1 (by rw [hen, hn1])
          rw [heq] at hagee
          exact hage hagee
        · intro hp
          exact hp.1
  · rw [if_pos (by simpa using hsf)]
    simp only [Bool.not_eq_false] at hsf
    simp [hsf]

theorem cleanCacheFile_names_nodup (now maxAge : Int) (sf uf : String → Bool) (fs : FS)
    (n : String) (hnd : (fs.map DirEntry.name).Nodup) :
    ((cleanCacheFile now maxAge sf uf fs n).map DirEntry.name).Nodup := by
  unfold cleanCacheFile
  have hsub : ((fsRemove fs n).map DirEntry.name).Nodup :=
    hnd.sublist (List.Sublist.map _ (List.filter_sublist _))
  split
  · exact hnd
  · split
    · exact hnd
    · split
      · split
        · exact hnd
        · exact hsub
      · exact hnd

theorem cleanFold_mem (now maxAge : Int) (sf uf : String → Bool) :
    ∀ (names : List String) (fs : FS), (fs.map DirEntry.name).Nodup → ∀ e : DirEntry,
      (e ∈ names.foldl (cleanCacheFile now maxAge sf uf) fs ↔
        e ∈ fs ∧ ∀ n ∈ names,
          ¬(e.name = n ∧ sf n = false ∧ now - e.mtime > maxAge ∧ uf n = false)) := by
  intro names
  induction names with
  | nil => intro fs _ e; simp
  | cons n ns ih =>
    intro fs hnd e
    rw [List.foldl_cons, ih _ (cleanCacheFile_names_nodup now maxAge sf uf fs n hnd) e,
      cleanCacheFile_mem now maxAge sf uf fs n hnd e]
    simp only [List.forall_mem_cons]
    tauto

theorem cleanOldCaches_mem (now maxAge : Int) (sf uf : String → Bool) (fs : FS)
    (hnd : (fs.map DirEntry.name).Nodup) (e : DirEntry) :
    e ∈ cleanOldCaches now maxAge false sf uf fs ↔
      e ∈ fs ∧ ¬(e.isFile = true ∧ strEndsWith e.name ".json" = true ∧ sf e.name = false ∧
        now - e.mtime > maxAge ∧ uf e.name = false) := by
  unfold cleanOldCaches
  rw [if_neg (by simp)]
  rw [cleanFold_mem now maxAge sf uf _ fs hnd e]
  constructor
  · rintro ⟨he, hall⟩
    refine ⟨he, ?_⟩
    rintro ⟨hif, hjson, hsf, hage, huf⟩
    have hmem : e.name ∈ (fs.filter (fun x => x.isFile && strEndsWith x.name ".json")).map
        DirEntry.name :=
      List.mem_map_of_mem _ (List.mem_filter.2 ⟨he, by simp [hif, hjson]⟩)
    exact hall _ hmem ⟨rfl, hsf, hage, huf⟩
  · rintro ⟨he, hcond⟩
    refine ⟨he, ?_⟩
    rintro n hn ⟨hen, hsf, hage, huf⟩
    obtain ⟨e1, he1mem, he1n⟩ := List.mem_map.1 hn
    have he1fs := (List.mem_filter.1 he1mem).1
    have hprop := (List.mem_filter.1 he1mem).2
    have heq : e1 = e := nodup_names_inj hnd he1fs he (by rw [he1n, ← hen])
    rw [heq] at hprop
    simp only [Bool.and_eq_true] at hprop
    refine hcond ⟨hprop.1, hprop.2, ?_, hage, ?_⟩
    · rw [hen]; exact hsf
    · rw [hen]; exact huf

/-! ### Helper lemmas: the request path -/

theorem request_ttl_nonpos (H : HashModel) (apiKey apiRevision endpoint : String)
    (o : ReqOptions) (ttl : Int) (ua : Option String) (fs : FS) (env : Env)
    (h : ¬ ttl > 0) :
    (request H apiKey apiRevision endpoint o ttl ua fs env).ops = [] ∧
      (request H apiKey apiRevision endpoint o ttl ua fs env).fs = fs ∧
      (request H apiKey apiRevision endpoint o ttl ua fs env).sentHeaders =
        prepareHeaders apiKey apiRevision o ∧
      (∀ msg, env.fetchResult = Except.error msg →
        (request H apiKey apiRevision endpoint o ttl ua fs env).result =
          Except.error (ReqError.transport msg)) := by
  simp only [request, if_neg h]
  cases henv : env.fetchResult with
  | error msg => simp [contextOptions]
  | ok resp =>
    cases hr : handleResponse resp none with
    | error er => simp [hr, contextOptions]
    | ok data => simp [hr, if_neg h, contextOptions]

theorem requestIter_ttl_nonpos (H : HashModel) (apiKey apiRevision endpoint : String)
    (o : ReqOptions) (ttl : Int) (ua : Option String) (h : ¬ ttl > 0) :
    ∀ (envs : List Env) (fs : FS),
      requestIter H apiKey apiRevision endpoint o ttl ua envs fs = fs := by
  intro envs
  induction envs with
  | nil => intro fs; rfl
  | cons env rest ih =>
    intro fs
    show requestIter H apiKey apiRevision endpoint o ttl ua rest
      (request H apiKey apiRevision endpoint o ttl ua fs env).fs = fs
    rw [(request_ttl_nonpos H apiKey apiRevision endpoint o ttl ua fs env h).2.1, ih]

theorem statFS_filter_other (fs : FS) (n1 n2 : String) (h : ¬ n1 = n2) :
    statFS (fs.filter (fun e => !(e.name == n1))) n2 = statFS fs n2 := by
  induction fs with
  | nil => rfl
  | cons e rest ih =>
    by_cases he : e.name = n1
    · rw [List.filter_cons_of_neg (by simp [he])]
      rw [ih]
      show statFS rest n2 = statFS (e :: rest) n2
      simp only [statFS]
      rw [List.find?_cons_of_neg _ (by simp [he, h])]
    · rw [List.filter_cons_of_pos (by simp [he])]
      by_cases hp : e.name = n2
      · simp only [statFS]
        rw [List.find?_cons_of_pos _ (by simp [hp]), List.find?_cons_of_pos _ (by simp [hp])]
      · simp only [statFS]
        rw [List.find?_cons_of_neg _ (by simp [hp]), List.find?_cons_of_neg _ (by simp [hp])]
        exact ih

theorem statFS_fsWrite_other (fs : FS) (n1 n2 : String) (j : Json) (t : Int)
    (h : ¬ n1 = n2) :
    statFS (fsWrite fs n1 j t) n2 = statFS fs n2 := by
  show statFS (⟨n1, true, t, some j⟩ :: fsRemove fs n1) n2 = statFS fs n2
  simp only [statFS, fsRemove]
  rw [List.find?_cons_of_neg _ (by simp [h])]
  exact statFS_filter_other fs n1 n2 h

theorem request_304_rewrites (H : HashModel) (apiKey apiRevision endpoint : String)
    (o : ReqOptions) (ttl : Int) (ua : Option String) (fs : FS) (env : Env)
    (resp : NetResponse) (c : CacheData)
    (hf : env.fetchResult = Except.ok resp) (h304 : resp.status = 304)
    (hw : env.writeFails = false) (httl : 0 < ttl)
    (hc : getCached H apiKey (requestKeyString endpoint ua) o ttl fs env.now = some c) :
    (request H apiKey apiRevision endpoint o ttl ua fs env).result = Except.ok c.data ∧
      (request H apiKey apiRevision endpoint o ttl ua fs env).fs =
        fsWrite fs (requestWriteFile H apiKey apiRevision endpoint o ua (some c))
          (cacheDataToJson ⟨c.data, resp.etag, resp.lastModified⟩) env.now ∧
      (request H apiKey apiRevision endpoint o ttl ua fs env).ops =
        [CacheOp.read (requestReadFile H apiKey endpoint o ua),
          CacheOp.write (requestWriteFile H apiKey apiRevision endpoint o ua (some c))
            ⟨c.data, resp.etag, resp.lastModified⟩] := by
  simp only [request, requestWriteFile, requestReadFile, if_pos httl, hc, hf, hw]
  simp [handleResponse, h304, if_pos httl]

theorem request_304_miss (H : HashModel) (apiKey apiRevision endpoint : String)
    (o : ReqOptions) (ttl : Int) (ua : Option String) (fs : FS) (env : Env)
    (resp : NetResponse)
    (hf : env.fetchResult = Except.ok resp) (h304 : resp.status = 304)
    (hmiss : (if ttl > 0 then
      getCached H apiKey (requestKeyString endpoint ua) o ttl fs env.now else none) = none) :
    (request H apiKey apiRevision endpoint o ttl ua fs env).result =
      Except.error ReqError.cacheMiss304 := by
  simp only [request, hf, hmiss]
  simp [handleResponse, h304]

/-! ### Claims -/

/-- C1: the spec (and the repo's own test comment "Should still return data even if
cache write fails") requires a failing cache write not to abort the fetch; the source
has no try/catch around `updateCache`/`setCache` inside `request`, so with TTL > 0 a
rejected `fs.writeFile` rejects the whole call.  Evaluated at the failing input —
TTL = 1000, a 200 response with a valid envelope, a cache write that throws — the
call rejects with the write error instead of resolving with the fetched payload. -/
theorem C1_cache_write_failure_rejects :
    (request idHash "k" "r" "/s" exOpts 1000 none [] exEnvW).result =
      Except.error ReqError.writeFailed := by decide

set_option maxRecDepth 4096 in
/-- C2 (counterexample): when the caller-supplied header record exactly reproduces
the merged `prepareHeaders` record and the cached entry carries no validators (so no
conditional headers are attached), the write fingerprint coincides with the read
fingerprint — and then a 304 at time 5 on an entry written at time 0 DOES rewrite the
found cache file, refreshing its modification time, refuting "the cache file is not
rewritten — its content and file modification time are left untouched". -/
theorem C2_counterexample :
    (request idHash "k" "r" "/s" exOptsH 10 none exFs1 exEnv304).fs ≠ exFs1 := by decide

/-- C2 (amended): on a 304 with TTL > 0, a cache hit and a succeeding write, the call
returns the cached payload unchanged; a cache write nevertheless occurs (updateCache
runs on the 304 path too), but it targets the fingerprint of `context.options` — the
merged header record plus any conditional headers — and whenever that write
fingerprint differs from the read fingerprint (always, unless the caller's raw
header record reproduces the merged record), the FOUND cache file's content and
modification time are indeed left untouched; when the fingerprints coincide, the
found file is rewritten with a refreshed modification time. -/
theorem C2_amended_not_modified_rewrites (H : HashModel)
    (apiKey apiRevision endpoint : String) (o : ReqOptions) (ttl : Int)
    (ua : Option String) (fs : FS) (env : Env) (resp : NetResponse) (c : CacheData)
    (hf : env.fetchResult = Except.ok resp) (h304 : resp.status = 304)
    (hw : env.writeFails = false) (httl : 0 < ttl)
    (hc : getCached H apiKey (requestKeyString endpoint ua) o ttl fs env.now = some c) :
    (request H apiKey apiRevision endpoint o ttl ua fs env).result = Except.ok c.data ∧
      (request H apiKey apiRevision endpoint o ttl ua fs env).fs =
        fsWrite fs (requestWriteFile H apiKey apiRevision endpoint o ua (some c))
          (cacheDataToJson ⟨c.data, resp.etag, resp.lastModified⟩) env.now ∧
      (request H apiKey apiRevision endpoint o ttl ua fs env).ops =
        [CacheOp.read (requestReadFile H apiKey endpoint o ua),
          CacheOp.write (requestWriteFile H apiKey apiRevision endpoint o ua (some c))
            ⟨c.data, resp.etag, resp.lastModified⟩] ∧
      (¬ requestWriteFile H apiKey apiRevision endpoint o ua (some c) =
          requestReadFile H apiKey endpoint o ua →
        statFS (request H apiKey apiRevision endpoint o ttl ua fs env).fs
            (requestReadFile H apiKey endpoint o ua) =
          statFS fs (requestReadFile H apiKey endpoint o ua)) := by
  obtain ⟨h1, h2, h3⟩ := request_304_rewrites H apiKey apiRevision endpoint o ttl ua
    fs env resp c hf h304 hw httl hc
  refine ⟨h1, h2, h3, ?_⟩
  intro hne
  rw [h2]
  exact statFS_fsWrite_other fs _ _ _ _ hne

theorem C2_amended_witness :
    (request idHash "k" "r" "/s" exOpts 10 none exFs0 exEnv304).result =
        Except.ok (Json.str "v") ∧
      statFS (request idHash "k" "r" "/s" exOpts 10 none exFs0 exEnv304).fs
          (requestReadFile idHash "k" "/s" exOpts none) =
        statFS exFs0 (requestReadFile idHash "k" "/s" exOpts none) :=
  ⟨(C2_amended_not_modified_rewrites idHash "k" "r" "/s" exOpts 10 none exFs0 exEnv304
      ⟨304, none, none, Except.ok Json.null⟩ ⟨Json.str "v", some "e", none⟩
      rfl rfl rfl (by decide) (by decide)).1,
    (C2_amended_not_modified_rewrites idHash "k" "r" "/s" exOpts 10 none exFs0 exEnv304
      ⟨304, none, none, Except.ok Json.null⟩ ⟨Json.str "v", some "e", none⟩
      rfl rfl rfl (by decide) (by decide)).2.2.2 (by decide)⟩

/-- C3: the claim (and the spec's idempotence property) is the clear intent — the
class doc comment describes ONE cache file per request, named by a hash of path,
query, method, body and credential, and the conditional-request machinery is only
reachable if what was written can be read back — but the code is a slip: `request`
passes the RAW `options` to `getCached` while `updateCache` passes `context.options`
(merged `Authorization`/`Content-Type`/`Wanikani-Revision` headers plus any
conditional headers) to `setCache`, so the write lands under a different fingerprint
than any later read.  Evaluated at the failing input — two consecutive identical
calls, TTL = 10, first response 200 with a valid envelope, second response 304 — the
second call misses the cache, its read fingerprint differs from the first call's
write fingerprint, and it rejects with 'Cache miss on 304 response' instead of
returning the first call's data. -/
theorem C3_fingerprint_mismatch_breaks_revalidation :
    (request idHash "k" "r" "/s" exOpts 10 none
        (request idHash "k" "r" "/s" exOpts 10 none [] exEnv200).fs exEnv304).result =
        Except.error ReqError.cacheMiss304 ∧
      requestWriteFile idHash "k" "r" "/s" exOpts none none ≠
        requestReadFile idHash "k" "/s" exOpts none ∧
      (request idHash "k" "r" "/s" exOpts 10 none
          (request idHash "k" "r" "/s" exOpts 10 none [] exEnv200).fs exEnv304).ops =
        [CacheOp.read (requestReadFile idHash "k" "/s" exOpts none)] := by
  refine ⟨by decide, by decide, by decide⟩

/-- C4 (counterexample): permuting the caller-header record changes the digest input,
and hence the fingerprint for any digest separating the two inputs (exhibited by the
identity hash model): header key order and incidental header presence are NOT ignored
by `generateCacheKey`, refuting the claimed insensitivity. -/
theorem C4_counterexample :
    uniqueString idHash "k" "/s" ⟨none, some [("a", "1"), ("b", "2")], none⟩ ≠
        uniqueString idHash "k" "/s" ⟨none, some [("b", "2"), ("a", "1")], none⟩ ∧
      generateCacheKey idHash "k" "/s" ⟨none, some [("a", "1"), ("b", "2")], none⟩ ≠
        generateCacheKey idHash "k" "/s" ⟨none, some [("b", "2"), ("a", "1")], none⟩ := by
  constructor <;> decide

/-- C4 (amended): two requests agreeing on normalized path, query, method, body,
credential AND the ordered caller-header record yield the same fingerprint; two
requests differing in method or body always yield different digest inputs, so their
fingerprints coincide only through an md5 collision. -/
theorem C4_amended_fingerprint (H : HashModel) (k k1 k2 e1 e2 : String)
    (o1 o2 : ReqOptions) :
    (urlPathname e1 = urlPathname e2 → urlSearch e1 = urlSearch e2 →
      o1.method = o2.method → o1.headers = o2.headers → o1.body = o2.body →
      generateCacheKey H k e1 o1 = generateCacheKey H k e2 o2) ∧
    ((o1.method.getD "GET" ≠ o2.method.getD "GET" ∨ o1.body ≠ o2.body) →
      uniqueString H k1 e1 o1 ≠ uniqueString H k2 e2 o2 ∧
        (generateCacheKey H k1 e1 o1 = generateCacheKey H k2 e2 o2 →
          ∃ s1 s2 : String, s1 ≠ s2 ∧ H.md5Hex s1 = H.md5Hex s2)) := by
  constructor
  · intro hp hs hm hh hb
    unfold generateCacheKey uniqueString relevantOptionsJson headersJson
    rw [hp, hs, hm, hh, hb]
  · intro hdiff
    have hne : uniqueString H k1 e1 o1 ≠ uniqueString H k2 e2 o2 := by
      intro he
      obtain ⟨_, _, hm, _, hb, _⟩ := uniqueString_fields H he
      rcases hdiff with h | h
      · exact h hm
      · exact h hb
    exact ⟨hne, fun hkey =>
      ⟨uniqueString H k1 e1 o1, uniqueString H k2 e2 o2, hne, hkey⟩⟩

theorem C4_amended_witness :
    uniqueString idHash "k" "/s" ⟨some "POST", none, none⟩ ≠
      uniqueString idHash "k" "/s" ⟨some "GET", none, none⟩ :=
  ((C4_amended_fingerprint idHash "k" "k" "k" "/s" "/s" ⟨some "POST", none, none⟩
    ⟨some "GET", none, none⟩).2 (Or.inl (by decide))).1

/-- C5: a 304 response for which no cache entry was found (TTL = 0 or an absent
lookup) makes the call fail with the explicit cache-inconsistency error
(`Cache miss on 304 response`) rather than resolve with an empty payload. -/
theorem C5_cache_miss_on_304_fails (H : HashModel) (apiKey apiRevision endpoint : String)
    (o : ReqOptions) (ttl : Int) (ua : Option String) (fs : FS) (env : Env)
    (resp : NetResponse)
    (hf : env.fetchResult = Except.ok resp) (h304 : resp.status = 304)
    (hmiss : ttl ≤ 0 ∨
      getCached H apiKey (requestKeyString endpoint ua) o ttl fs env.now = none) :
    (request H apiKey apiRevision endpoint o ttl ua fs env).result =
      Except.error ReqError.cacheMiss304 := by
  apply request_304_miss H apiKey apiRevision endpoint o ttl ua fs env resp hf h304
  rcases hmiss with h | h
  · rw [if_neg (by omega)]
  · by_cases httl : ttl > 0
    · rw [if_pos httl]
      exact h
    · rw [if_neg httl]

theorem C5_witness :
    (request idHash "k" "r" "/s" exOpts 0 none [] exEnv304).result =
      Except.error ReqError.cacheMiss304 :=
  C5_cache_miss_on_304_fails idHash "k" "r" "/s" exOpts 0 none [] exEnv304
    ⟨304, none, none, Except.ok Json.null⟩ rfl rfl (Or.inl (by decide))

/-- C6: with TTL = 0 the Cache Store is neither read nor written (no cache-layer
action, the directory is untouched), no conditional revalidation headers are attached
(the sent headers are exactly the unconditional prepared headers), the network
outcome alone determines the result, and arbitrarily many repeated calls leave the
cache directory unchanged. -/
theorem C6_ttl_zero_no_cache_io (H : HashModel) (apiKey apiRevision endpoint : String)
    (o : ReqOptions) (ttl : Int) (ua : Option String) (fs : FS) (env : Env)
    (h : ttl = 0) :
    (request H apiKey apiRevision endpoint o ttl ua fs env).ops = [] ∧
      (request H apiKey apiRevision endpoint o ttl ua fs env).fs = fs ∧
      (request H apiKey apiRevision endpoint o ttl ua fs env).sentHeaders =
        prepareHeaders apiKey apiRevision o ∧
      (∀ envs : List Env, requestIter H apiKey apiRevision endpoint o ttl ua envs fs = fs) := by
  have h0 : ¬ ttl > 0 := by omega
  obtain ⟨a, b, c, _⟩ := request_ttl_nonpos H apiKey apiRevision endpoint o ttl ua fs env h0
  exact ⟨a, b, c, fun envs =>
    requestIter_ttl_nonpos H apiKey apiRevision endpoint o ttl ua h0 envs fs⟩

theorem C6_witness :
    (request idHash "k" "r" "/s" exOpts 0 none [] exEnv200).ops = [] ∧
      requestIter idHash "k" "r" "/s" exOpts 0 none [exEnv200, exEnv304] [] = [] :=
  ⟨(C6_ttl_zero_no_cache_io idHash "k" "r" "/s" exOpts 0 none [] exEnv200 rfl).1,
    (C6_ttl_zero_no_cache_io idHash "k" "r" "/s" exOpts 0 none [] exEnv200 rfl).2.2.2
      [exEnv200, exEnv304]⟩

/-- C7: the cache read returns absent (`none`) — never an entry and, by the source's
catch-all, never an error — whenever the file does not exist, or its age is at least
the TTL, or its content fails to parse as JSON, or the parsed value fails structural
validation; all four failure modes are indistinguishable to the caller. -/
theorem C7_cache_read_absent_cases (H : HashModel) (apiKey endpoint : String)
    (o : ReqOptions) (ttl : Int) (fs : FS) (now : Int)
    (h : statFS fs (generateCacheKey H apiKey endpoint o ++ ".json") = none ∨
      ∃ e, statFS fs (generateCacheKey H apiKey endpoint o ++ ".json") = some e ∧
        (ttl ≤ now - e.mtime ∨ e.content = none ∨
          ∃ j, e.content = some j ∧ isCacheData j = false)) :
    getCached H apiKey endpoint o ttl fs now = none := by
  simp only [getCached]
  rcases h with h | ⟨e, he, hcase⟩
  · rw [h]
  · rw [he]
    show (if now - e.mtime < ttl then
        match e.content with
        | none => none
        | some j => if isCacheData j = true then some (extractCacheData j) else none
      else none) = none
    rcases hcase with hage | hc | ⟨j, hj, hv⟩
    · rw [if_neg (by omega)]
    · by_cases hlt : now - e.mtime < ttl
      · rw [if_pos hlt, hc]
      · rw [if_neg hlt]
    · by_cases hlt : now - e.mtime < ttl
      · rw [if_pos hlt, hj]
        simp [hv]
      · rw [if_neg hlt]

theorem C7_witness :
    getCached idHash "" "/x" exOpts 5 [] 0 = none :=
  C7_cache_read_absent_cases idHash "" "/x" exOpts 5 [] 0 (Or.inl rfl)

/-- C8: `cleanOldCaches` with a failing directory enumeration leaves the directory
untouched (and resolves); otherwise an entry survives iff it is not (a regular file
named `*.json` whose stat succeeds, whose age strictly exceeds `maxAge`, and whose
unlink succeeds) — so exactly the sufficiently old `.json` regular files with
successful stat and unlink are deleted, newer files are kept, non-regular entries are
skipped and individual stat/unlink failures are swallowed without affecting the other
files. -/
theorem C8_prune_spec (now maxAge : Int) (readdirFails : Bool) (sf uf : String → Bool)
    (fs : FS) (hnd : (fs.map DirEntry.name).Nodup) :
    (readdirFails = true → cleanOldCaches now maxAge readdirFails sf uf fs = fs) ∧
      (readdirFails = false → ∀ e : DirEntry,
        e ∈ cleanOldCaches now maxAge readdirFails sf uf fs ↔
          e ∈ fs ∧ ¬(e.isFile = true ∧ strEndsWith e.name ".json" = true ∧
            sf e.name = false ∧ now - e.mtime > maxAge ∧ uf e.name = false)) := by
  constructor
  · intro h
    subst h
    rfl
  · intro h
    subst h
    exact cleanOldCaches_mem now maxAge sf uf fs hnd

theorem C8_witness :
    ((⟨"old.json", true, 0, none⟩ : DirEntry) ∈
        cleanOldCaches 100 50 false (fun _ => false) (fun _ => false)
          [⟨"old.json", true, 0, none⟩, ⟨"new.json", true, 90, none⟩] ↔
      (⟨"old.json", true, 0, none⟩ : DirEntry) ∈
          ([⟨"old.json", true, 0, none⟩, ⟨"new.json", true, 90, none⟩] : FS) ∧
        ¬((true : Bool) = true ∧ strEndsWith "old.json" ".json" = true ∧
          (false : Bool) = false ∧ (100 : Int) - 0 > 50 ∧ (false : Bool) = false)) :=
  (C8_prune_spec 100 50 false (fun _ => false) (fun _ => false)
    [⟨"old.json", true, 0, none⟩, ⟨"new.json", true, 90, none⟩] (by decide)).2 rfl
    ⟨"old.json", true, 0, none⟩

/-- C9: the fingerprint is a pure function of exactly the normalized path, the
normalized query, the method (default GET), the header record, the body and the
truncated credential digest — equal such tuples give equal fingerprints, with no
dependence on wall-clock time or ambient state — and changing the method, the body,
the normalized path or query, or the truncated credential digest changes the digest
input, hence the fingerprint unless md5 itself collides. -/
theorem C9_fingerprint_pure_and_sensitive (H : HashModel) (k1 k2 e1 e2 : String)
    (o1 o2 : ReqOptions) :
    ((H.sha256Hex k1).take 8 = (H.sha256Hex k2).take 8 →
      urlPathname e1 = urlPathname e2 → urlSearch e1 = urlSearch e2 →
      o1.method.getD "GET" = o2.method.getD "GET" →
      o1.headers.getD [] = o2.headers.getD [] → o1.body = o2.body →
      generateCacheKey H k1 e1 o1 = generateCacheKey H k2 e2 o2) ∧
    ((urlPathname e1 ≠ urlPathname e2 ∨ urlSearch e1 ≠ urlSearch e2 ∨
        o1.method.getD "GET" ≠ o2.method.getD "GET" ∨ o1.body ≠ o2.body ∨
        (H.sha256Hex k1).take 8 ≠ (H.sha256Hex k2).take 8) →
      uniqueString H k1 e1 o1 ≠ uniqueString H k2 e2 o2 ∧
        (generateCacheKey H k1 e1 o1 = generateCacheKey H k2 e2 o2 →
          ∃ s1 s2 : String, s1 ≠ s2 ∧ H.md5Hex s1 = H.md5Hex s2)) := by
  constructor
  · intro hsha hp hs hm hh hb
    unfold generateCacheKey uniqueString relevantOptionsJson headersJson
    rw [hp, hs, hm, hh, hb, hsha]
  · intro hdiff
    have hne : uniqueString H k1 e1 o1 ≠ uniqueString H k2 e2 o2 := by
      intro he
      obtain ⟨ha, hb2, hc, _, he2, hf⟩ := uniqueString_fields H he
      rcases hdiff with h | h | h | h | h
      · exact h ha
      · exact h hb2
      · exact h hc
      · exact h he2
      · exact h hf
    exact ⟨hne, fun hkey =>
      ⟨uniqueString H k1 e1 o1, uniqueString H k2 e2 o2, hne, hkey⟩⟩

theorem C9_witness :
    uniqueString idHash "k" "/a" exOpts ≠ uniqueString idHash "k" "/b" exOpts :=
  ((C9_fingerprint_pure_and_sensitive idHash "k" "k" "/a" "/b" exOpts exOpts).2
    (Or.inl (by decide))).1

/-- C10: `cleanOldCaches` never deletes an entry that is not a regular `.json` file —
whatever its age, a directory entry without the `.json` suffix (or that is not a
regular file) survives pruning. -/
theorem C10_prune_keeps_non_json (now maxAge : Int) (sf uf : String → Bool) (fs : FS)
    (hnd : (fs.map DirEntry.name).Nodup) (e : DirEntry) (he : e ∈ fs)
    (hnj : strEndsWith e.name ".json" = false ∨ e.isFile = false) :
    e ∈ cleanOldCaches now maxAge false sf uf fs := by
  rw [cleanOldCaches_mem now maxAge sf uf fs hnd e]
  refine ⟨he, ?_⟩
  rintro ⟨hif, hjs, _, _, _⟩
  rcases hnj with h | h
  · rw [h] at hjs
    cases hjs
  · rw [h] at hif
    cases hif

theorem C10_witness :
    (⟨"notes.txt", true, 0, none⟩ : DirEntry) ∈
      cleanOldCaches 100 50 false (fun _ => false) (fun _ => false)
        [⟨"notes.txt", true, 0, none⟩] :=
  C10_prune_keeps_non_json 100 50 (fun _ => false) (fun _ => false)
    [⟨"notes.txt", true, 0, none⟩] (by decide) ⟨"notes.txt", true, 0, none⟩
    (by decide) (Or.inl (by decide))

end WaniKani
